import Mathlib

/-!
Verification development for the browser-binary fetcher of deno-puppeteer
(`src/deno/BrowserFetcher.ts`).

The TypeScript source is shallowly embedded: pure string/byte computations
become Lean functions, and the effectful `download` / `remove` /
`localRevisions` operations become explicit state-passing functions over a
filesystem modelled as a list of existing paths (respectively, of directory
entry names).  JavaScript runtime primitives that the source calls
(`String.prototype.split`, `String.prototype.endsWith`,
`String.prototype.includes`, `parseInt`) are modelled by Lean functions with
the standard JS semantics on the inputs the source feeds them; `parseInt`'s
NaN result is modelled as `Option.none`.
-/

namespace BrowserFetcherSpec

/-- The two supported products (`Product.js`). -/
inductive Product where
  | chrome
  | firefox
deriving DecidableEq, Repr

/-- The supported platforms (`type Platform` in `BrowserFetcher.ts`). -/
inductive Platform where
  | linux
  | linuxArm64
  | mac
  | win32
  | win64
deriving DecidableEq, Repr

/-- The string key used for a platform in the `downloadURLs` table and in
folder names (`linux-arm64` is the hyphen-containing identifier). -/
def platformStr : Platform → String
  | .linux => "linux"
  | .linuxArm64 => "linux-arm64"
  | .mac => "mac"
  | .win32 => "win32"
  | .win64 => "win64"

/-- Inverse of `platformStr`: which `Platform` a string key denotes, if any. -/
def platformOfString (s : String) : Option Platform :=
  if s = "linux" then some .linux
  else if s = "linux-arm64" then some .linuxArm64
  else if s = "mac" then some .mac
  else if s = "win32" then some .win32
  else if s = "win64" then some .win64
  else none

/-- The `downloadURLs` template table (`BrowserFetcher.ts`, lines 33-48). -/
def downloadURLs : Product → Platform → String
  | .chrome, .linux => "%s/chromium-browser-snapshots/Linux_x64/%d/%s.zip"
  | .chrome, .linuxArm64 => "%s/chromium-browser-snapshots/Linux_arm64/%d/%s.zip"
  | .chrome, .mac => "%s/chromium-browser-snapshots/Mac/%d/%s.zip"
  | .chrome, .win32 => "%s/chromium-browser-snapshots/Win/%d/%s.zip"
  | .chrome, .win64 => "%s/chromium-browser-snapshots/Win_x64/%d/%s.zip"
  | .firefox, .linux => "%s/firefox-%s.en-US.%s-x86_64.tar.bz2"
  | .firefox, .linuxArm64 => "%s/firefox-%s.en-US.%s-aarch64.tar.bz2"
  | .firefox, .mac => "%s/firefox-%s.en-US.%s.dmg"
  | .firefox, .win32 => "%s/firefox-%s.en-US.%s.zip"
  | .firefox, .win64 => "%s/firefox-%s.en-US.%s.zip"

/-- The property names every JS object literal inherits from
`Object.prototype`; bracket access with one of these keys yields a function
(or, for `__proto__`, the prototype object) — a truthy value. -/
def objectPrototypeKeys : List String :=
  ["constructor", "hasOwnProperty", "isPrototypeOf", "propertyIsEnumerable",
   "toLocaleString", "toString", "valueOf", "__defineGetter__",
   "__defineSetter__", "__lookupGetter__", "__lookupSetter__", "__proto__"]

/-- Truthiness of the JS bracket access `downloadURLs[product]?.[platform]`
used by `parseName` (line 476): true for the five own platform keys (whose
values are non-empty template strings) and for every property inherited from
`Object.prototype` (e.g. `constructor`, `toString`), since JS property
access traverses the prototype chain; any other key yields `undefined`,
which is falsy. -/
def downloadURLsLookupTruthy (_product : Product) (s : String) : Bool :=
  (platformOfString s).isSome || decide (s ∈ objectPrototypeKeys)

/-- Digits at the front of a character list (JS `parseInt` consumes a maximal
leading digit run). -/
def leadingDigits (l : List Char) : List Char :=
  l.takeWhile Char.isDigit

/-- Numeric value of a digit run. -/
def digitsToNat (l : List Char) : Nat :=
  l.foldl (fun acc c => acc * 10 + (c.toNat - '0'.toNat)) 0

/-- JS `parseInt(s, 10)`: skip leading whitespace, optional sign, then a
maximal run of decimal digits; `none` models the JS result `NaN` (in
particular `parseInt("", 10)` is `NaN`). -/
def jsParseIntDec (s : String) : Option Int :=
  let t := s.data.dropWhile Char.isWhitespace
  match t with
  | '-' :: rest =>
      if leadingDigits rest = [] then none
      else some (-(digitsToNat (leadingDigits rest) : Int))
  | '+' :: rest =>
      if leadingDigits rest = [] then none
      else some (digitsToNat (leadingDigits rest) : Int)
  | _ =>
      if leadingDigits t = [] then none
      else some (digitsToNat (leadingDigits t) : Int)

/-- The `archiveName` function (`BrowserFetcher.ts`, lines 68-85).  For
chrome on Windows, JS compares `parseInt(revision, 10) > 591479`; a `NaN`
comparison is false, so an unparseable revision yields `chrome-win32`. -/
def archiveName (product : Product) (platform : Platform) (revision : String) : String :=
  match product, platform with
  | .chrome, .linux => "chrome-linux"
  | .chrome, .linuxArm64 => "chrome-linux"
  | .chrome, .mac => "chrome-mac"
  | .chrome, .win32 =>
      match jsParseIntDec revision with
      | some n => if n > 591479 then "chrome-win" else "chrome-win32"
      | none => "chrome-win32"
  | .chrome, .win64 =>
      match jsParseIntDec revision with
      | some n => if n > 591479 then "chrome-win" else "chrome-win32"
      | none => "chrome-win32"
  | .firefox, pl => platformStr pl

/-- Character-level positional substitution of `%s` / `%d` directives. -/
def substFmtChars : List Char → List String → List Char
  | [], _ => []
  | '%' :: 's' :: rest, a :: args => a.data ++ substFmtChars rest args
  | '%' :: 'd' :: rest, a :: args => a.data ++ substFmtChars rest args
  | c :: rest, args => c :: substFmtChars rest args

/-- Modelled from the spec: the vendored `sprintf` (from `vendor/std.ts`,
which is not part of the sources under `src/`) as used by `downloadURL` —
"built from a per-product, per-platform URL template via positional
substitution of host, revision, and archive name".  Each `%s` or `%d`
directive is replaced, left to right, by the next argument. -/
def sprintfSub (template : String) (args : List String) : String :=
  String.mk (substFmtChars template.data args)

/-- The fixed Firefox nightly endpoint returned for `(firefox, linux)`
(`BrowserFetcher.ts`, line 102). -/
def firefoxLinuxURL : String :=
  "https://download.mozilla.org/?product=firefox-nightly-latest-ssl&os=linux64&lang=en-US&_gl=1*1lx0kac*_ga*NDg5MjU3NzYxLjE3MzQ2OTg0MTQ.*_ga_MQ7767QQQW*czE3NDg3NzM0MTUkbzIkZzEkdDE3NDg3NzM4NDQkajQ3JGwwJGgw"

/-- The fixed Firefox nightly endpoint returned for `(firefox, linux-arm64)`
(`BrowserFetcher.ts`, line 98). -/
def firefoxLinuxArm64URL : String :=
  "https://download.mozilla.org/?product=firefox-nightly-latest-ssl&os=linux64-aarch64&lang=en-US&_gl=1*se5055*_ga*NDg5MjU3NzYxLjE3MzQ2OTg0MTQ.*_ga_MQ7767QQQW*czE3NDg3NzM0MTUkbzIkZzEkdDE3NDg3NzM4NDQkajQ3JGwwJGgw"

/-- The `downloadURL` function (`BrowserFetcher.ts`, lines 90-112): the two
firefox/Linux special cases return fixed endpoints, every other pair goes
through the template table. -/
def downloadURL (product : Product) (platform : Platform) (host revision : String) : String :=
  if product = .firefox ∧ platform = .linuxArm64 then firefoxLinuxArm64URL
  else if product = .firefox ∧ platform = .linux then firefoxLinuxURL
  else sprintfSub (downloadURLs product platform)
    [host, revision, archiveName product platform revision]

/-- JS `String.prototype.split` with a one-character separator, on character
lists.  The result is always non-empty. -/
def splitOnC (sep : Char) : List Char → List (List Char)
  | [] => [[]]
  | c :: rest =>
    match splitOnC sep rest with
    | [] => [[]]
    | s :: ss => if c = sep then [] :: s :: ss else (c :: s) :: ss

/-- Concatenation with the separator between parts; inverse of `splitOnC`. -/
def joinSep (sep : Char) : List (List Char) → List Char
  | [] => []
  | [a] => a
  | a :: b :: rest => a ++ sep :: joinSep sep (b :: rest)

/-- `url.split("/").pop()!` — the final path segment of a URL. -/
def lastSegment (s : String) : String :=
  String.mk ((splitOnC '/' s.data).getLastD [])

/-- The record produced by `parseName` (`BrowserFetcher.ts`, lines 457-478):
`platform` is kept as a string, exactly as the source does. -/
structure ParsedName where
  product : Product
  platform : String
  revision : String
deriving DecidableEq, Repr

/-- The `parseName` function (`BrowserFetcher.ts`, lines 457-478): split the
folder name on `-`; two segments are platform/revision, three segments are
accepted only as `linux-arm64-{revision}`; then the bracket access
`downloadURLs[product]?.[platform]` must be truthy — which, by JS prototype
chain traversal, it also is for `Object.prototype` property names. -/
def parseName (product : Product) (name : String) : Option ParsedName :=
  let splits := (splitOnC '-' name.data).map String.mk
  let parsed : Option (String × String) :=
    match splits with
    | [platform, revision] => some (platform, revision)
    | [a, b, revision] =>
        if a = "linux" ∧ b = "arm64" then some ("linux-arm64", revision) else none
    | _ => none
  match parsed with
  | none => none
  | some (platform, revision) =>
      if downloadURLsLookupTruthy product platform then
        some ⟨product, platform, revision⟩
      else none

/-- Basename of an installed revision's folder: `this._platform + "-" +
revision` (`BrowserFetcher.ts`, line 453). -/
def folderNameStr (platform : Platform) (revision : String) : String :=
  platformStr platform ++ "-" ++ revision

/-- The vendored `pathJoin` from `vendor/std.ts`, modelled as separator
join of the two segments. -/
def pathJoin (a b : String) : String :=
  a ++ "/" ++ b

/-- JS `String.prototype.endsWith`, as suffix test on the character list. -/
def jsEndsWith (s suffix : String) : Bool :=
  suffix.data.isSuffixOf s.data

/-- Prefix test used by `charsIncludes`. -/
def startsWithChars : List Char → List Char → Bool
  | _, [] => true
  | [], _ :: _ => false
  | c :: cs, d :: ds => c = d && startsWithChars cs ds

/-- Occurrence test on character lists. -/
def charsIncludes (hay needle : List Char) : Bool :=
  if startsWithChars hay needle then true
  else
    match hay with
    | [] => false
    | _ :: rest => charsIncludes rest needle

/-- JS `String.prototype.includes` (case sensitive substring test). -/
def jsIncludes (s sub : String) : Bool :=
  charsIncludes s.data sub.data

/-- XZ magic test (`fd 37 7a 58 5a 00`) on the 20-byte header buffer of
`detectAndRenameArchive`; the `Uint8Array` is zero-initialized, so bytes
beyond the file content read as 0, modelled by `getD _ 0`. -/
def xzMagic (buf : List Nat) : Bool :=
  buf.getD 0 0 == 0xfd && buf.getD 1 0 == 0x37 && buf.getD 2 0 == 0x7a &&
  buf.getD 3 0 == 0x58 && buf.getD 4 0 == 0x5a && buf.getD 5 0 == 0x00

/-- gzip magic test (`1f 8b`). -/
def gzipMagic (buf : List Nat) : Bool :=
  buf.getD 0 0 == 0x1f && buf.getD 1 0 == 0x8b

/-- bzip2 magic test (`BZ`, `42 5a`). -/
def bz2Magic (buf : List Nat) : Bool :=
  buf.getD 0 0 == 0x42 && buf.getD 1 0 == 0x5a

/-- ZIP magic test (`PK`, `50 4b`). -/
def zipMagic (buf : List Nat) : Bool :=
  buf.getD 0 0 == 0x50 && buf.getD 1 0 == 0x4b

/-- `archivePath.replace(/\.tar\.bz2$/, newSuffix)`: replace a trailing
`.tar.bz2` (8 characters) by `newSuffix`, otherwise leave the path
unchanged. -/
def replaceTarBz2 (p newSuffix : String) : String :=
  if jsEndsWith p ".tar.bz2" then
    String.mk (p.data.take (p.data.length - 8) ++ newSuffix.data)
  else p

/-- Pure core of `detectAndRenameArchive` (`BrowserFetcher.ts`, lines
595-667): given the archive path, the 20-byte header buffer and the textual
output of the external `file` command (`none` when that command failed), the
path under which the archive ends up — the filesystem rename to that path is
performed by the caller model.  The checks run in the source's order: XZ,
gzip, bzip2, ZIP magics, then the `file`-output substrings `gzip`, `bzip2`,
`Zip`; no match keeps the original path. -/
def detectAndRename (archivePath : String) (buf : List Nat) (fileOut : Option String) : String :=
  if xzMagic buf then replaceTarBz2 archivePath ".tar.xz"
  else if gzipMagic buf then replaceTarBz2 archivePath ".tar.gz"
  else if bz2Magic buf then archivePath
  else if zipMagic buf then replaceTarBz2 archivePath ".zip"
  else
    match fileOut with
    | some out =>
        if jsIncludes out "gzip" then replaceTarBz2 archivePath ".tar.gz"
        else if jsIncludes out "bzip2" then archivePath
        else if jsIncludes out "Zip" then replaceTarBz2 archivePath ".zip"
        else archivePath
    | none => archivePath

/-- The five archive handlers `install` can dispatch to
(`BrowserFetcher.ts`, lines 515-529). -/
inductive ArchiveKind where
  | zip
  | tarBz2
  | tarGz
  | tarXz
  | dmg
deriving DecidableEq, Repr

/-- Extension dispatch of `install`: `none` models the
`Unsupported archive format` throw. -/
def installDispatch (archivePath : String) : Option ArchiveKind :=
  if jsEndsWith archivePath ".zip" then some .zip
  else if jsEndsWith archivePath ".tar.bz2" then some .tarBz2
  else if jsEndsWith archivePath ".tar.gz" then some .tarGz
  else if jsEndsWith archivePath ".tar.xz" then some .tarXz
  else if jsEndsWith archivePath ".dmg" then some .dmg
  else none

/-- `parseInt(response.headers.get("content-length") ?? "", 10)` — the total
reported to the progress callback; `none` models `NaN`, which is what a
missing `content-length` header produces. -/
def progressTotal (contentLength : Option String) : Option Int :=
  jsParseIntDec (contentLength.getD "")

/-- The stream loop of `downloadFile` (`BrowserFetcher.ts`, lines 502-512):
running byte count after each chunk, paired with the (constant) total. -/
def progressCallsAux (done : Nat) (total : Option Int) : List Nat → List (Nat × Option Int)
  | [] => []
  | sz :: rest => (done + sz, total) :: progressCallsAux (done + sz) total rest

/-- The sequence of `progressCallback(downloadedBytes, totalBytes)`
invocations of `downloadFile`, given the chunk sizes of the response body and
the `content-length` header (absent = `none`). -/
def progressCalls (chunkSizes : List Nat) (contentLength : Option String) : List (Nat × Option Int) :=
  progressCallsAux 0 (progressTotal contentLength) chunkSizes

/-- The fields of a constructed `BrowserFetcher` that `download`,
`revisionInfo`, `remove` and `localRevisions` read. -/
structure Fetcher where
  product : Product
  platform : Platform
  downloadsFolder : String
  downloadHost : String
deriving DecidableEq, Repr

/-- `BrowserFetcherRevisionInfo` (`BrowserFetcher.ts`, lines 140-147); the
source field `local` is a Lean keyword and is called `isLocal` here. -/
structure RevisionInfo where
  revision : String
  executablePath : String
  folderPath : String
  isLocal : Bool
  url : String
  product : Product
deriving DecidableEq, Repr

/-- `_getFolderPath(revision)` (`BrowserFetcher.ts`, line 453). -/
def folderPathOf (f : Fetcher) (revision : String) : String :=
  pathJoin f.downloadsFolder (platformStr f.platform ++ "-" ++ revision)

/-- The executable-path branching of `revisionInfo` (`BrowserFetcher.ts`,
lines 384-423); every (product, platform) pair of the enums is covered, so
the `Unsupported platform` throws are unreachable. -/
def executablePathOf (f : Fetcher) (revision folderPath : String) : String :=
  match f.product, f.platform with
  | .chrome, .mac =>
      pathJoin (pathJoin (pathJoin (pathJoin
        (pathJoin folderPath (archiveName .chrome .mac revision))
        "Chromium.app") "Contents") "MacOS") "Chromium"
  | .chrome, .linux =>
      pathJoin (pathJoin folderPath (archiveName .chrome .linux revision)) "chrome"
  | .chrome, .linuxArm64 =>
      pathJoin (pathJoin folderPath (archiveName .chrome .linuxArm64 revision)) "chrome"
  | .chrome, .win32 =>
      pathJoin (pathJoin folderPath (archiveName .chrome .win32 revision)) "chrome.exe"
  | .chrome, .win64 =>
      pathJoin (pathJoin folderPath (archiveName .chrome .win64 revision)) "chrome.exe"
  | .firefox, .mac =>
      pathJoin (pathJoin (pathJoin (pathJoin folderPath
        "Firefox Nightly.app") "Contents") "MacOS") "firefox"
  | .firefox, .linux => pathJoin (pathJoin folderPath "firefox") "firefox"
  | .firefox, .linuxArm64 => pathJoin (pathJoin folderPath "firefox") "firefox"
  | .firefox, .win32 => pathJoin (pathJoin folderPath "firefox") "firefox.exe"
  | .firefox, .win64 => pathJoin (pathJoin folderPath "firefox") "firefox.exe"

/-- `revisionInfo(revision)` over a filesystem `fs` (list of existing
paths): `isLocal` is `existsSync(folderPath)`, recomputed from the current
filesystem. -/
def revisionInfoOf (f : Fetcher) (revision : String) (fs : List String) : RevisionInfo :=
  { revision := revision
    executablePath := executablePathOf f revision (folderPathOf f revision)
    folderPath := folderPathOf f revision
    isLocal := decide (folderPathOf f revision ∈ fs)
    url := downloadURL f.product f.platform f.downloadHost revision
    product := f.product }

/-- Outcome of the `downloadFile` GET (`BrowserFetcher.ts`, lines 483-513):
a non-200 status throws before the destination file is created; a stream
failure leaves a partial file behind; success leaves the full file. -/
inductive DlOutcome where
  | httpError
  | streamError
  | success
deriving DecidableEq, Repr

/-- Environment a single `download` call runs in: the filesystem (existing
paths), `Deno.build` values, the filename extracted from the HEAD response's
`content-disposition` header (abstracting the regex at lines 290-294;
`none` when the header is absent or unmatched), the archive header bytes,
the `file` command output, and whether extraction succeeds. -/
structure Env where
  fs : List String
  buildArch : String
  buildOS : String
  contentDispositionFilename : Option String
  dlOutcome : DlOutcome
  header : List Nat
  fileCmdOut : Option String
  installOk : Bool

/-- A network request issued during `download`. -/
inductive NetEvent where
  | headReq (url : String)
  | getReq (url : String)
deriving DecidableEq, Repr

/-- The ways a `download` call can throw. -/
inductive DlErr where
  | chromeArm64Unsupported
  | downloadFailed
  | installFailed
deriving DecidableEq, Repr

/-- Add a path to the filesystem (no duplicate entries). -/
def fsInsert (p : String) (fs : List String) : List String :=
  if p ∈ fs then fs else p :: fs

/-- The `finally` block of `download` (`BrowserFetcher.ts`, lines 328-332):
remove the archive at its original path if it still exists. -/
def finallyCleanup (archivePath : String) (fs : List String) : List String :=
  if archivePath ∈ fs then fs.erase archivePath else fs

/-- Whether `download` takes the firefox-Linux special branch
(`this._product === "firefox" && (linux || linux-arm64)`). -/
def isFirefoxLinuxCase (f : Fetcher) : Bool :=
  f.product == .firefox && (f.platform == .linux || f.platform == .linuxArm64)

/-- The `fileName` computed by `download` (`BrowserFetcher.ts`, lines
278-302): on the firefox-Linux branch a constructed default, overridden by
the `content-disposition` filename when present; otherwise the last URL
segment. -/
def fileNameOf (f : Fetcher) (revision : String) (env : Env) : String :=
  if isFirefoxLinuxCase f then
    match env.contentDispositionFilename with
    | some n => n
    | none =>
        let arch := if f.platform == Platform.linuxArm64 then "aarch64" else "x86_64"
        "firefox-" ++ revision ++ ".en-US.linux-" ++ arch ++ ".tar.bz2"
  else lastSegment (downloadURL f.product f.platform f.downloadHost revision)

/-- `archivePath = pathJoin(this._downloadsFolder, fileName)`. -/
def archivePathOf (f : Fetcher) (revision : String) (env : Env) : String :=
  pathJoin f.downloadsFolder (fileNameOf f revision env)

/-- The body of the `try` block past a successful `downloadFile`
(`BrowserFetcher.ts`, lines 321-327): on the firefox-Linux branch, sniff and
possibly rename the archive, then extract; otherwise extract directly.
Extraction creates the output folder; failure throws. -/
def installPhase (f : Fetcher) (env : Env) (archivePath outputPath : String)
    (fs2 : List String) : Except DlErr Unit × List String :=
  if isFirefoxLinuxCase f then
    let actualPath := detectAndRename archivePath env.header env.fileCmdOut
    let fs3 := if actualPath = archivePath then fs2
               else fsInsert actualPath (fs2.erase archivePath)
    if env.installOk then (.ok (), fsInsert outputPath fs3)
    else (.error .installFailed, fs3)
  else
    if env.installOk then (.ok (), fsInsert outputPath fs2)
    else (.error .installFailed, fs2)

/-- The `try { downloadFile; install } finally { cleanup }` block of
`download` (`BrowserFetcher.ts`, lines 318-332): whatever happens inside the
`try`, the `finally` removes the archive at its original path if present. -/
def tryFinally (f : Fetcher) (env : Env) (archivePath outputPath : String)
    (fs1 : List String) : Except DlErr Unit × List String :=
  match env.dlOutcome with
  | .httpError => (.error .downloadFailed, finallyCleanup archivePath fs1)
  | .streamError =>
      (.error .downloadFailed, finallyCleanup archivePath (fsInsert archivePath fs1))
  | .success =>
      let step := installPhase f env archivePath outputPath (fsInsert archivePath fs1)
      (step.1, finallyCleanup archivePath step.2)

/-- Result of one `download` call: the returned value or thrown error, the
final filesystem, and the network requests issued. -/
structure DlResult where
  result : Except DlErr RevisionInfo
  fs : List String
  events : List NetEvent

/-- The `download` method (`BrowserFetcher.ts`, lines 267-341): compute the
URL and file name (a HEAD request on the firefox-Linux branch), short-circuit
if the output folder exists, create the downloads folder, reject chrome on an
arm64 host, then run the download/extract `try`/`finally` and return the
freshly computed revision info.  The trailing `chmod` calls touch permission
bits only and are not modelled. -/
def downloadModel (f : Fetcher) (revision : String) (env : Env) : DlResult :=
  let url := downloadURL f.product f.platform f.downloadHost revision
  let headEvents : List NetEvent := if isFirefoxLinuxCase f then [.headReq url] else []
  let archivePath := archivePathOf f revision env
  let outputPath := folderPathOf f revision
  if outputPath ∈ env.fs then
    { result := .ok (revisionInfoOf f revision env.fs), fs := env.fs, events := headEvents }
  else
    let fs1 := fsInsert f.downloadsFolder env.fs
    if env.buildArch = "arm64" ∧ f.product = .chrome then
      { result := .error .chromeArm64Unsupported, fs := fs1, events := headEvents }
    else
      let step := tryFinally f env archivePath outputPath fs1
      let events := headEvents ++ [.getReq url]
      match step.1 with
      | .error e => { result := .error e, fs := step.2, events := events }
      | .ok () => { result := .ok (revisionInfoOf f revision step.2), fs := step.2, events := events }

/-- `Deno.readDir` on the downloads folder: throws when the directory does
not exist, otherwise yields the entry names. -/
def readDir (dirExists : Bool) (entries : List String) : Except Unit (List String) :=
  if dirExists then .ok entries else .error ()

/-- The pure mapping of `localRevisions` (`BrowserFetcher.ts`, lines
355-358): parse every entry name, keep the successfully parsed ones whose
platform string matches the fetcher's platform, and return their revisions. -/
def localRevisionsList (product : Product) (platform : Platform)
    (entries : List String) : List String :=
  ((entries.filterMap (parseName product)).filter
    (fun e => e.platform == platformStr platform)).map (fun e => e.revision)

/-- The `localRevisions` method (`BrowserFetcher.ts`, lines 349-359): an
early `[]` return when the downloads folder does not exist, otherwise a
directory listing followed by the pure mapping. -/
def localRevisionsRun (product : Product) (platform : Platform) (rootExists : Bool)
    (entries : List String) : Except Unit (List String) :=
  if rootExists then (readDir rootExists entries).map (localRevisionsList product platform)
  else .ok []

/-- The `remove` method (`BrowserFetcher.ts`, lines 368-375) on the entry
names of the downloads folder: the `assert(await exists(folderPath))` throws
(`NotInstalled`) when the revision's folder is absent, otherwise the folder
is deleted recursively. -/
def removeRun (platform : Platform) (revision : String)
    (entries : List String) : Except Unit (List String) :=
  if folderNameStr platform revision ∈ entries then
    .ok (entries.erase (folderNameStr platform revision))
  else .error ()

/-- Whether an `Except` result is a success. -/
def isOkResult (r : Except DlErr RevisionInfo) : Bool :=
  match r with
  | .ok _ => true
  | .error _ => false

theorem splitOnC_ne_nil (sep : Char) (l : List Char) : splitOnC sep l ≠ [] := by
  induction l with
  | nil => simp [splitOnC]
  | cons c rest ih =>
    simp only [splitOnC]
    rcases h : splitOnC sep rest with _ | ⟨s, ss⟩
    · exact absurd h ih
    · by_cases hc : c = sep <;> simp [hc]

theorem splitOnC_sep_cons (sep : Char) (b : List Char) :
    splitOnC sep (sep :: b) = [] :: splitOnC sep b := by
  simp only [splitOnC]
  rcases h : splitOnC sep b with _ | ⟨s, ss⟩
  · exact absurd h (splitOnC_ne_nil sep b)
  · simp

theorem splitOnC_append (sep : Char) (a b : List Char) (ha : sep ∉ a) :
    splitOnC sep (a ++ sep :: b) = a :: splitOnC sep b := by
  induction a with
  | nil => simpa using splitOnC_sep_cons sep b
  | cons c cs ih =>
    have hc : c ≠ sep := fun h => ha (h ▸ List.mem_cons_self c cs)
    have hcs : sep ∉ cs := fun h => ha (List.mem_cons_of_mem c h)
    show splitOnC sep (c :: (cs ++ sep :: b)) = (c :: cs) :: splitOnC sep b
    rw [splitOnC, ih hcs]
    simp [hc]

theorem splitOnC_no_sep (sep : Char) (l : List Char) (h : sep ∉ l) :
    splitOnC sep l = [l] := by
  induction l with
  | nil => rfl
  | cons c rest ih =>
    have hc : c ≠ sep := fun hh => h (hh ▸ List.mem_cons_self c rest)
    have hrest : sep ∉ rest := fun hh => h (List.mem_cons_of_mem c hh)
    simp [splitOnC, ih hrest, hc]

theorem joinSep_splitOnC (sep : Char) (l : List Char) :
    joinSep sep (splitOnC sep l) = l := by
  induction l with
  | nil => rfl
  | cons c rest ih =>
    simp only [splitOnC]
    rcases h : splitOnC sep rest with _ | ⟨s, ss⟩
    · exact absurd h (splitOnC_ne_nil sep rest)
    · rw [h] at ih
      by_cases hc : c = sep
      · subst hc
        simpa [joinSep] using ih
      · simp only [if_neg hc]
        cases ss with
        | nil => simp only [joinSep] at ih ⊢; rw [ih]
        | cons s2 ss2 =>
            simp only [joinSep, List.cons_append] at ih ⊢
            rw [ih]

theorem parseName_sound (product : Product) (name : String) (e : ParsedName)
    (h : parseName product name = some e) :
    name.data = e.platform.data ++ '-' :: e.revision.data ∧
    downloadURLsLookupTruthy product e.platform = true := by
  have hjoin := joinSep_splitOnC '-' name.data
  rcases hsl : splitOnC '-' name.data with _ | ⟨x, _ | ⟨y, _ | ⟨z, _ | w⟩⟩⟩ <;>
    rw [hsl] at hjoin
  · exact absurd hsl (splitOnC_ne_nil '-' name.data)
  · simp [parseName, hsl] at h
  · simp only [parseName, hsl, List.map] at h
    split at h
    · injection h with h2
      subst h2
      refine ⟨?_, by assumption⟩
      simpa [joinSep] using hjoin.symm
    · exact Option.noConfusion h
  · simp only [parseName, hsl, List.map] at h
    split at h
    · exact Option.noConfusion h
    · next pr rv heq =>
        split at heq
        · next hab =>
            obtain ⟨hx, hy⟩ := hab
            have hx2 : x = "linux".data := congrArg String.data hx
            have hy2 : y = "arm64".data := congrArg String.data hy
            injection heq with heq2
            obtain ⟨rfl, rfl⟩ := Prod.mk.inj heq2
            split at h
            · next hk =>
                injection h with h2
                subst h2
                refine ⟨?_, hk⟩
                rw [← hjoin, hx2, hy2,
                  show ("linux-arm64" : String).data = "linux".data ++ '-' :: "arm64".data from rfl,
                  List.append_assoc]
                simp [joinSep]
            · exact Option.noConfusion h
        · exact Option.noConfusion heq
  · simp [parseName, hsl] at h

/-- Claim C3, counterexample: both halves of the claim fail on the code.
The round trip fails for a revision string that itself contains a hyphen —
`folderPath` for platform `linux` and revision `1-2` produces the name
`linux-1-2`, but `parseName` on that name returns `none` instead of
recovering `(linux, "1-2")`.  And a name whose platform part is not a known
platform does not always parse to `none`: `constructor` is no platform, yet
`parseName` accepts `constructor-1`, because the JS bracket access
`downloadURLs[product]?.["constructor"]` finds the truthy
`Object.prototype.constructor` on the prototype chain. -/
theorem parseName_roundtrip_hyphen_cex :
    (folderNameStr .linux "1-2" = "linux-1-2" ∧
     parseName .chrome "linux-1-2" = none) ∧
    (platformOfString "constructor" = none ∧
     parseName .chrome "constructor-1" = some ⟨.chrome, "constructor", "1"⟩) := by
  refine ⟨⟨rfl, rfl⟩, by decide, rfl⟩

/-- Claim C3 (amended): for every known platform (including the
hyphen-containing `linux-arm64`) and every revision string that does not
itself contain a hyphen, building the installed folder name
`{platform}-{revision}` and parsing it back recovers exactly the platform and
revision; and whenever `parseName` succeeds, its platform part is either a
key of the `downloadURLs` table or a property name inherited from
`Object.prototype` (the truthiness check traverses the JS prototype chain),
so any name whose platform part is neither parses to `none`. -/
theorem parseName_folderName_roundtrip (product : Product) (pl : Platform) (rev : String)
    (hrev : '-' ∉ rev.data) :
    parseName product (folderNameStr pl rev) = some ⟨product, platformStr pl, rev⟩ ∧
    (∀ name e, parseName product name = some e →
      (platformOfString e.platform).isSome = true ∨
        e.platform ∈ objectPrototypeKeys) := by
  refine ⟨?_, fun name e h => by
    simpa [downloadURLsLookupTruthy] using (parseName_sound product name e h).2⟩
  have hsplit : ∀ a : String, '-' ∉ a.data →
      splitOnC '-' (a ++ "-" ++ rev).data = [a.data, rev.data] := by
    intro a ha
    have : (a ++ "-" ++ rev).data = a.data ++ '-' :: rev.data := by
      simp [String.data_append]
    rw [this, splitOnC_append '-' a.data rev.data ha, splitOnC_no_sep '-' rev.data hrev]
  cases pl
  · rw [parseName]
    rw [folderNameStr, platformStr, hsplit "linux" (by decide)]
    rfl
  · rw [parseName, folderNameStr, platformStr]
    have : ("linux-arm64" ++ "-" ++ rev).data =
        "linux".data ++ '-' :: ("arm64".data ++ '-' :: rev.data) := by
      simp [String.data_append]
    rw [this, splitOnC_append '-' "linux".data _ (by decide),
      splitOnC_append '-' "arm64".data _ (by decide), splitOnC_no_sep '-' rev.data hrev]
    rfl
  · rw [parseName, folderNameStr, platformStr, hsplit "mac" (by decide)]
    rfl
  · rw [parseName, folderNameStr, platformStr, hsplit "win32" (by decide)]
    rfl
  · rw [parseName, folderNameStr, platformStr, hsplit "win64" (by decide)]
    rfl

/-- Witness for C3: the round trip at platform `linux-arm64`, revision
`141.0a1`. -/
theorem parseName_folderName_roundtrip_witness :
    parseName .chrome (folderNameStr .linuxArm64 "141.0a1") =
      some ⟨.chrome, "linux-arm64", "141.0a1"⟩ :=
  (parseName_folderName_roundtrip .chrome .linuxArm64 "141.0a1" (by decide)).1

/-- Claim C9: when the download root directory does not exist,
`localRevisions` returns the empty list (the guard returns before the
directory listing, which would have raised). -/
theorem localRevisions_missing_root (product : Product) (platform : Platform)
    (entries : List String) :
    localRevisionsRun product platform false entries = .ok [] ∧
    readDir false entries = .error () :=
  ⟨rfl, rfl⟩

/-- Claim C6: for the Firefox product on the two Linux platforms,
`downloadURL` returns the fixed redirect endpoints, independent of host and
revision; for every other product/platform pair it is the positional
substitution of host, revision, and archive name into the per-product
per-platform template. -/
theorem downloadURL_fixed_and_template :
    (∀ host rev, downloadURL .firefox .linux host rev = firefoxLinuxURL ∧
      downloadURL .firefox .linuxArm64 host rev = firefoxLinuxArm64URL) ∧
    (∀ (p : Product) (pl : Platform) (host rev : String),
      (p = .firefox → pl ≠ .linux ∧ pl ≠ .linuxArm64) →
      downloadURL p pl host rev =
        sprintfSub (downloadURLs p pl) [host, rev, archiveName p pl rev]) := by
  constructor
  · intro host rev
    exact ⟨rfl, rfl⟩
  · intro p pl host rev h
    cases p <;> cases pl <;>
      first
        | rfl
        | exact absurd rfl (h rfl).1
        | exact absurd rfl (h rfl).2

/-- Witness for C6: the chrome/linux URL is the template instantiation. -/
theorem downloadURL_template_witness :
    downloadURL .chrome .linux "H" "42" =
      sprintfSub (downloadURLs .chrome .linux) ["H", "42", archiveName .chrome .linux "42"] :=
  downloadURL_fixed_and_template.2 .chrome .linux "H" "42" (fun h => Product.noConfusion h)

theorem jsEndsWith_iff (s t : String) : jsEndsWith s t = true ↔ t.data <:+ s.data := by
  simp [jsEndsWith, List.isSuffixOf_iff_suffix]

theorem jsEndsWith_excl (p s t : String)
    (hst : ¬ s.data <:+ t.data) (hts : ¬ t.data <:+ s.data)
    (h1 : jsEndsWith p s = true) : jsEndsWith p t = false := by
  rcases h2 : jsEndsWith p t with _ | _
  · rfl
  · rcases List.suffix_or_suffix_of_suffix ((jsEndsWith_iff p s).1 h1)
      ((jsEndsWith_iff p t).1 h2) with h | h
    · exact absurd h hst
    · exact absurd h hts

/-- Claim C7: `install` dispatches on the file extension — `.zip`, `.tar.bz2`,
`.tar.gz`, `.tar.xz`, `.dmg` each to their handler — and throws the
unsupported-archive-format error if and only if the path ends with none of
the five extensions. -/
theorem installDispatch_spec (p : String) :
    (installDispatch p = none ↔
      jsEndsWith p ".zip" = false ∧ jsEndsWith p ".tar.bz2" = false ∧
      jsEndsWith p ".tar.gz" = false ∧ jsEndsWith p ".tar.xz" = false ∧
      jsEndsWith p ".dmg" = false) ∧
    (jsEndsWith p ".zip" = true → installDispatch p = some .zip) ∧
    (jsEndsWith p ".tar.bz2" = true → installDispatch p = some .tarBz2) ∧
    (jsEndsWith p ".tar.gz" = true → installDispatch p = some .tarGz) ∧
    (jsEndsWith p ".tar.xz" = true → installDispatch p = some .tarXz) ∧
    (jsEndsWith p ".dmg" = true → installDispatch p = some .dmg) := by
  refine ⟨?_, ?_, ?_, ?_, ?_, ?_⟩
  · rcases h1 : jsEndsWith p ".zip" with _ | _ <;>
      rcases h2 : jsEndsWith p ".tar.bz2" with _ | _ <;>
        rcases h3 : jsEndsWith p ".tar.gz" with _ | _ <;>
          rcases h4 : jsEndsWith p ".tar.xz" with _ | _ <;>
            rcases h5 : jsEndsWith p ".dmg" with _ | _ <;>
              simp [installDispatch, h1, h2, h3, h4, h5]
  · intro h
    simp [installDispatch, h]
  · intro h
    have e1 := jsEndsWith_excl p ".tar.bz2" ".zip" (by decide) (by decide) h
    simp [installDispatch, h, e1]
  · intro h
    have e1 := jsEndsWith_excl p ".tar.gz" ".zip" (by decide) (by decide) h
    have e2 := jsEndsWith_excl p ".tar.gz" ".tar.bz2" (by decide) (by decide) h
    simp [installDispatch, h, e1, e2]
  · intro h
    have e1 := jsEndsWith_excl p ".tar.xz" ".zip" (by decide) (by decide) h
    have e2 := jsEndsWith_excl p ".tar.xz" ".tar.bz2" (by decide) (by decide) h
    have e3 := jsEndsWith_excl p ".tar.xz" ".tar.gz" (by decide) (by decide) h
    simp [installDispatch, h, e1, e2, e3]
  · intro h
    have e1 := jsEndsWith_excl p ".dmg" ".zip" (by decide) (by decide) h
    have e2 := jsEndsWith_excl p ".dmg" ".tar.bz2" (by decide) (by decide) h
    have e3 := jsEndsWith_excl p ".dmg" ".tar.gz" (by decide) (by decide) h
    have e4 := jsEndsWith_excl p ".dmg" ".tar.xz" (by decide) (by decide) h
    simp [installDispatch, h, e1, e2, e3, e4]

/-- Witness for C7: a `.tar.bz2` path dispatches to the bzip2+tar handler. -/
theorem installDispatch_spec_witness :
    installDispatch "chromium/firefox-141.tar.bz2" = some ArchiveKind.tarBz2 :=
  (installDispatch_spec "chromium/firefox-141.tar.bz2").2.2.1 (by decide)

theorem replaceTarBz2_of_not_tarbz2 (p x : String) (h : jsEndsWith p ".tar.bz2" = false) :
    replaceTarBz2 p x = p := by
  simp [replaceTarBz2, h]

/-- Claim C4, counterexample: a file named `foo.tar.gz` whose content bears
the ZIP magic is NOT renamed to `foo.zip` — the corrective rename only
rewrites a `.tar.bz2` suffix, so the sniffed format (ZIP) and the name's
extension stay in disagreement, contradicting the claim that such a file is
renamed to the matching extension. -/
theorem detectAndRename_no_rename_cex :
    zipMagic [0x50, 0x4b] = true ∧
    jsEndsWith "foo.tar.gz" ".zip" = false ∧
    detectAndRename "foo.tar.gz" [0x50, 0x4b] none = "foo.tar.gz" := by
  refine ⟨rfl, by decide, by decide⟩

/-- Claim C4 (amended): the sniffer classifies by leading magic bytes in the
terminal order XZ, gzip, bzip2, ZIP; if none matches it falls back to the
`file` command output, matched case-sensitively for `gzip`, `bzip2`, `Zip`
in that order; the rename to the sniffed format's extension is performed by
replacing a trailing `.tar.bz2` — a path not ending in `.tar.bz2` is always
returned unchanged, and when nothing matches the original path is returned
unchanged. -/
theorem detectAndRename_spec (p : String) (buf : List Nat) (o : Option String) :
    (xzMagic buf = true → detectAndRename p buf o = replaceTarBz2 p ".tar.xz") ∧
    (xzMagic buf = false → gzipMagic buf = true →
      detectAndRename p buf o = replaceTarBz2 p ".tar.gz") ∧
    (xzMagic buf = false → gzipMagic buf = false → bz2Magic buf = true →
      detectAndRename p buf o = p) ∧
    (xzMagic buf = false → gzipMagic buf = false → bz2Magic buf = false →
      zipMagic buf = true → detectAndRename p buf o = replaceTarBz2 p ".zip") ∧
    (∀ s, xzMagic buf = false → gzipMagic buf = false → bz2Magic buf = false →
      zipMagic buf = false → o = some s →
      ((jsIncludes s "gzip" = true →
          detectAndRename p buf o = replaceTarBz2 p ".tar.gz") ∧
       (jsIncludes s "gzip" = false → jsIncludes s "bzip2" = true →
          detectAndRename p buf o = p) ∧
       (jsIncludes s "gzip" = false → jsIncludes s "bzip2" = false →
          jsIncludes s "Zip" = true →
          detectAndRename p buf o = replaceTarBz2 p ".zip") ∧
       (jsIncludes s "gzip" = false → jsIncludes s "bzip2" = false →
          jsIncludes s "Zip" = false → detectAndRename p buf o = p))) ∧
    (xzMagic buf = false → gzipMagic buf = false → bz2Magic buf = false →
      zipMagic buf = false → o = none → detectAndRename p buf o = p) ∧
    (jsEndsWith p ".tar.bz2" = false → detectAndRename p buf o = p) := by
  refine ⟨?_, ?_, ?_, ?_, ?_, ?_, ?_⟩
  · intro h1
    simp [detectAndRename, h1]
  · intro h1 h2
    simp [detectAndRename, h1, h2]
  · intro h1 h2 h3
    simp [detectAndRename, h1, h2, h3]
  · intro h1 h2 h3 h4
    simp [detectAndRename, h1, h2, h3, h4]
  · intro s h1 h2 h3 h4 ho
    subst ho
    refine ⟨?_, ?_, ?_, ?_⟩
    · intro g1
      simp [detectAndRename, h1, h2, h3, h4, g1]
    · intro g1 g2
      simp [detectAndRename, h1, h2, h3, h4, g1, g2]
    · intro g1 g2 g3
      simp [detectAndRename, h1, h2, h3, h4, g1, g2, g3]
    · intro g1 g2 g3
      simp [detectAndRename, h1, h2, h3, h4, g1, g2, g3]
  · intro h1 h2 h3 h4 ho
    subst ho
    simp [detectAndRename, h1, h2, h3, h4]
  · intro hnb
    rcases h1 : xzMagic buf with _ | _ <;>
      rcases h2 : gzipMagic buf with _ | _ <;>
        rcases h3 : bz2Magic buf with _ | _ <;>
          rcases h4 : zipMagic buf with _ | _ <;>
            rcases o with _ | s <;>
              simp [detectAndRename, h1, h2, h3, h4, replaceTarBz2_of_not_tarbz2 _ _ hnb]

/-- Witness for C4: gzip magic under a `.tar.bz2` name is renamed to
`.tar.gz`. -/
theorem detectAndRename_spec_witness :
    detectAndRename "d/a.tar.bz2" [0x1f, 0x8b] none = replaceTarBz2 "d/a.tar.bz2" ".tar.gz" :=
  (detectAndRename_spec "d/a.tar.bz2" [0x1f, 0x8b] none).2.1 (by decide) (by decide)

theorem progressCallsAux_length (total : Option Int) (l : List Nat) (done : Nat) :
    (progressCallsAux done total l).length = l.length := by
  induction l generalizing done with
  | nil => rfl
  | cons sz rest ih => simp [progressCallsAux, ih]

theorem progressCallsAux_get (total : Option Int) (l : List Nat) (done : Nat)
    (i : Nat) (h : i < (progressCallsAux done total l).length) :
    (progressCallsAux done total l).get ⟨i, h⟩ = (done + (l.take (i + 1)).sum, total) := by
  induction l generalizing done i with
  | nil => simp [progressCallsAux] at h
  | cons sz rest ih =>
    cases i with
    | zero => simp [progressCallsAux]
    | succ j =>
      have h2 : j < (progressCallsAux (done + sz) total rest).length := by
        simpa [progressCallsAux] using h
      calc (progressCallsAux done total (sz :: rest)).get ⟨j + 1, h⟩
          = (progressCallsAux (done + sz) total rest).get ⟨j, h2⟩ := rfl
        _ = (done + sz + (rest.take (j + 1)).sum, total) := ih (done + sz) j h2
        _ = (done + ((sz :: rest).take (j + 1 + 1)).sum, total) := by
              simp [List.take, Nat.add_assoc]

/-- Claim C5, counterexample: when the `content-length` header is absent the
code computes `parseInt("", 10)`, which is `NaN` (modelled `none`), not `0`:
after a single 7-byte chunk the callback receives `(7, NaN)`, and `NaN` is
not the number `0`. -/
theorem progress_nan_total_cex :
    progressTotal none = none ∧
    jsParseIntDec "" = none ∧
    progressCalls [7] none = [(7, (none : Option Int))] ∧
    (none : Option Int) ≠ some 0 := by
  refine ⟨rfl, rfl, rfl, by decide⟩

/-- Claim C5 (amended): the progress callback is invoked exactly once per
chunk, with the cumulative byte count; the total passed with every call is
`parseInt` of the `content-length` header, which for a missing header is
`NaN` (modelled `none`) — an unknown marker, not the number `0`. -/
theorem progressCalls_spec (chunks : List Nat) (cl : Option String) :
    (progressCalls chunks cl).length = chunks.length ∧
    (∀ i (h : i < (progressCalls chunks cl).length),
      (progressCalls chunks cl).get ⟨i, h⟩ =
        ((chunks.take (i + 1)).sum, progressTotal cl)) ∧
    (cl = none → progressTotal cl = none) := by
  refine ⟨progressCallsAux_length _ chunks 0, ?_, fun h => h ▸ rfl⟩
  intro i h
  simpa using progressCallsAux_get (progressTotal cl) chunks 0 i h

/-- Witness for C5: two chunks of 3 and 4 bytes with no `content-length`
produce the calls `(3, NaN)`, `(7, NaN)`. -/
theorem progressCalls_spec_witness :
    (progressCalls [3, 4] none).length = 2 ∧
    (progressCalls [3, 4] none).get ⟨1, by decide⟩ = (7, (none : Option Int)) :=
  ⟨(progressCalls_spec [3, 4] none).1,
    by simpa using (progressCalls_spec [3, 4] none).2.1 1 (by decide)⟩

/-- Claim C8: `remove` fails (the `NotInstalled` assert) iff the revision's
folder is absent, and on success the removed revision no longer appears in
`localRevisions`. -/
theorem remove_spec (product : Product) (pl : Platform) (rev : String)
    (entries : List String) (hnd : entries.Nodup) :
    (removeRun pl rev entries = .error () ↔ folderNameStr pl rev ∉ entries) ∧
    (∀ entries2, removeRun pl rev entries = .ok entries2 →
      rev ∉ localRevisionsList product pl entries2) := by
  constructor
  · by_cases h : folderNameStr pl rev ∈ entries <;> simp [removeRun, h]
  · intro entries2 hok
    by_cases h : folderNameStr pl rev ∈ entries
    · simp only [removeRun, if_pos h] at hok
      injection hok with hok2
      subst hok2
      intro hmem
      simp only [localRevisionsList, List.mem_map, List.mem_filter,
        List.mem_filterMap] at hmem
      obtain ⟨e, ⟨⟨n, hn, hparse⟩, hplat⟩, hrev⟩ := hmem
      have hplat2 : e.platform = platformStr pl := by
        exact beq_iff_eq.1 hplat
      have hname := (parseName_sound product n e hparse).1
      have hdata : n.data = (folderNameStr pl rev).data := by
        rw [hname, hplat2, hrev, folderNameStr]
        simp [String.data_append]
      have : n = folderNameStr pl rev := by
        cases n with
        | mk d =>
            cases hf : folderNameStr pl rev with
            | mk d2 =>
                rw [hf] at hdata
                simp only at hdata
                rw [hdata]
      rw [this] at hn
      exact hnd.not_mem_erase hn
    · simp only [removeRun, if_neg h] at hok
      exact Except.noConfusion hok

/-- Witness for C8: removing `linux-100` from a root holding `linux-100` and
`mac-3` leaves a listing in which revision `100` no longer occurs. -/
theorem remove_spec_witness :
    "100" ∉ localRevisionsList .chrome .linux ["mac-3"] :=
  (remove_spec .chrome .linux "100" ["linux-100", "mac-3"] (by decide)).2 ["mac-3"] rfl

theorem mem_fsInsert (a p : String) (fs : List String) :
    a ∈ fsInsert p fs ↔ a = p ∨ a ∈ fs := by
  unfold fsInsert
  split
  · next h =>
      constructor
      · exact Or.inr
      · rintro (rfl | ha)
        exacts [h, ha]
  · simp [List.mem_cons]

theorem fsInsert_nodup {p : String} {fs : List String} (h : fs.Nodup) :
    (fsInsert p fs).Nodup := by
  unfold fsInsert
  split
  · exact h
  · next hp => exact List.nodup_cons.2 ⟨hp, h⟩

theorem not_mem_finallyCleanup {a : String} {fs : List String} (h : fs.Nodup) :
    a ∉ finallyCleanup a fs := by
  unfold finallyCleanup
  split
  · exact h.not_mem_erase
  · next ha => exact ha

theorem installPhase_snd_nodup (f : Fetcher) (env : Env) (a o : String)
    (fs2 : List String) (h : fs2.Nodup) : (installPhase f env a o fs2).2.Nodup := by
  by_cases hff : isFirefoxLinuxCase f = true
  · by_cases hok : env.installOk = true
    · by_cases heq : detectAndRename a env.header env.fileCmdOut = a
      · simp only [installPhase, hff, if_pos, hok, if_true, heq]
        exact fsInsert_nodup h
      · simp only [installPhase, hff, if_pos, hok, if_true, if_neg heq]
        exact fsInsert_nodup (fsInsert_nodup (h.erase a))
    · by_cases heq : detectAndRename a env.header env.fileCmdOut = a
      · simp only [installPhase, hff, if_pos, hok, heq]
        simpa using h
      · simp only [installPhase, hff, if_pos, hok, if_neg heq]
        simpa using fsInsert_nodup (h.erase a)
  · by_cases hok : env.installOk = true
    · simp only [installPhase, hff, hok]
      simpa using fsInsert_nodup h
    · simp only [installPhase, hff, hok]
      simpa using h

theorem tryFinally_not_mem (f : Fetcher) (env : Env) (a o : String)
    (fs1 : List String) (h : fs1.Nodup) : a ∉ (tryFinally f env a o fs1).2 := by
  rcases hdo : env.dlOutcome with _ | _ | _ <;> simp only [tryFinally, hdo]
  · exact not_mem_finallyCleanup h
  · exact not_mem_finallyCleanup (fsInsert_nodup h)
  · exact not_mem_finallyCleanup
      (installPhase_snd_nodup f env a o _ (fsInsert_nodup h))

theorem tryFinally_fst_ne_arm64 (f : Fetcher) (env : Env) (a o : String)
    (fs1 : List String) :
    (tryFinally f env a o fs1).1 ≠ .error .chromeArm64Unsupported := by
  rcases hdo : env.dlOutcome with _ | _ | _ <;> simp only [tryFinally, hdo]
  · simp
  · simp
  · by_cases hff : isFirefoxLinuxCase f = true <;> by_cases hok : env.installOk = true <;>
      simp [installPhase, hff, hok]

/-- The fetcher used in the concrete download scenarios: firefox on linux,
downloads folder `d`, host `h`. -/
def cexFetcher : Fetcher := ⟨.firefox, .linux, "d", "h"⟩

/-- Environment of the C1 counterexample: empty filesystem, x86 host, the
GET succeeds, the downloaded bytes carry the gzip magic, extraction
succeeds. -/
def cexEnv : Env := ⟨[], "x86_64", "linux", none, .success, [0x1f, 0x8b], none, true⟩

/-- Claim C1, counterexample: a successful firefox/linux download whose
content sniffs as gzip is renamed from `...tar.bz2` to `...tar.gz` before
extraction; the `finally` cleanup checks only the original `...tar.bz2`
path, so the renamed archive file remains on disk after the operation
completes — alongside the extracted folder, not instead of it. -/
theorem download_renamed_archive_persists :
    isOkResult (downloadModel cexFetcher "1" cexEnv).result = true ∧
    archivePathOf cexFetcher "1" cexEnv = "d/firefox-1.en-US.linux-x86_64.tar.bz2" ∧
    "d/firefox-1.en-US.linux-x86_64.tar.gz" ∈ (downloadModel cexFetcher "1" cexEnv).fs ∧
    folderPathOf cexFetcher "1" ∈ (downloadModel cexFetcher "1" cexEnv).fs ∧
    installDispatch "d/firefox-1.en-US.linux-x86_64.tar.gz" = some ArchiveKind.tarGz := by
  refine ⟨rfl, rfl, by decide, by decide, rfl⟩

/-- Claim C1 (amended): on every invocation that actually downloads (no
local short-circuit, no chrome-on-arm64 rejection), the scoped cleanup
removes the archive at its original download path on both the success and
failure paths; when the corrective rename has changed the archive's file
name, only the original path is cleaned and the renamed archive persists. -/
theorem download_archive_cleanup (f : Fetcher) (rev : String) (env : Env)
    (hnd : env.fs.Nodup)
    (hout : folderPathOf f rev ∉ env.fs)
    (harch : ¬(env.buildArch = "arm64" ∧ f.product = .chrome)) :
    archivePathOf f rev env ∉ (downloadModel f rev env).fs := by
  simp only [downloadModel]
  rw [if_neg hout, if_neg harch]
  rcases hstep : (tryFinally f env (archivePathOf f rev env) (folderPathOf f rev)
      (fsInsert f.downloadsFolder env.fs)).1 with e | u
  · simp only [hstep]
    exact tryFinally_not_mem f env _ _ _ (fsInsert_nodup hnd)
  · simp only [hstep]
    exact tryFinally_not_mem f env _ _ _ (fsInsert_nodup hnd)

/-- Witness for C1 (amended): in the C1 scenario the original
`...tar.bz2` path is indeed absent afterwards. -/
theorem download_archive_cleanup_witness :
    archivePathOf cexFetcher "1" cexEnv ∉ (downloadModel cexFetcher "1" cexEnv).fs :=
  download_archive_cleanup cexFetcher "1" cexEnv (by decide) (by decide) (by decide)

/-- Environment of the C2 counterexample: the revision's folder already
exists on disk. -/
def cex2Env : Env := ⟨["d/linux-1"], "x86_64", "linux", none, .success, [], none, true⟩

/-- Claim C2, counterexample: for firefox on linux, a `download` call whose
target folder already exists still issues a network request — the
filename-detection HEAD fetch runs before the existence short-circuit, so
the second call's network I/O is not empty. -/
theorem download_shortcircuit_head_request :
    (downloadModel cexFetcher "1" cex2Env).events = [NetEvent.headReq firefoxLinuxURL] ∧
    (downloadModel cexFetcher "1" cex2Env).events ≠ [] := by
  refine ⟨rfl, by decide⟩

/-- Claim C2 (amended): when the target folder already exists, `download`
returns the freshly computed `RevisionInfo`, leaves the filesystem
untouched, and never issues a GET (so the archive is downloaded at most
once); for every product/platform pair except firefox on the Linux
platforms it issues no network request at all, while the firefox/Linux
pairs still perform their filename-detection HEAD request before the
short-circuit. -/
theorem download_shortcircuit (f : Fetcher) (rev : String) (env : Env)
    (h : folderPathOf f rev ∈ env.fs) :
    (downloadModel f rev env).result = .ok (revisionInfoOf f rev env.fs) ∧
    (downloadModel f rev env).fs = env.fs ∧
    (∀ u, NetEvent.getReq u ∉ (downloadModel f rev env).events) ∧
    (isFirefoxLinuxCase f = false → (downloadModel f rev env).events = []) := by
  simp only [downloadModel, if_pos h]
  refine ⟨by trivial, by trivial, ?_, ?_⟩
  · intro u
    by_cases hff : isFirefoxLinuxCase f = true <;> simp [hff]
  · intro hff
    simp [hff]

/-- The fetcher of the C2 witness: chrome on mac. -/
def cex3Fetcher : Fetcher := ⟨.chrome, .mac, "d", "h"⟩

/-- Environment of the C2 witness: revision 7 is already installed. -/
def cex3Env : Env := ⟨["d/mac-7"], "x86_64", "darwin", none, .success, [], none, true⟩

/-- Witness for C2 (amended): chrome/mac with the folder present returns the
revision info with no network traffic. -/
theorem download_shortcircuit_witness :
    (downloadModel cex3Fetcher "7" cex3Env).result =
      .ok (revisionInfoOf cex3Fetcher "7" cex3Env.fs) ∧
    (downloadModel cex3Fetcher "7" cex3Env).events = [] :=
  ⟨(download_shortcircuit cex3Fetcher "7" cex3Env (by decide)).1,
   (download_shortcircuit cex3Fetcher "7" cex3Env (by decide)).2.2.2 (by decide)⟩

/-- Claim C10: the chrome-on-arm64 rejection is keyed on the host
architecture (`Deno.build.arch`) together with the product being chrome —
never on the fetcher's configured platform, which is universally quantified
here — and it runs only after the local-existence short-circuit: with the
folder present the installed revision is still returned, without it every
fresh chrome download on an `arm64` host is refused; a firefox fetcher is
never rejected by this check. -/
theorem download_arm64_gate (f : Fetcher) (rev : String) (env : Env)
    (harch : env.buildArch = "arm64") :
    (f.product = .chrome → folderPathOf f rev ∉ env.fs →
      (downloadModel f rev env).result = .error .chromeArm64Unsupported) ∧
    (f.product = .chrome → folderPathOf f rev ∈ env.fs →
      (downloadModel f rev env).result = .ok (revisionInfoOf f rev env.fs)) ∧
    (f.product = .firefox →
      (downloadModel f rev env).result ≠ .error .chromeArm64Unsupported) := by
  refine ⟨?_, ?_, ?_⟩
  · intro hp hout
    simp only [downloadModel]
    rw [if_neg hout, if_pos ⟨harch, hp⟩]
  · intro hp h
    simp only [downloadModel, if_pos h]
  · intro hp
    by_cases hout : folderPathOf f rev ∈ env.fs
    · simp [downloadModel, if_pos hout]
    · simp only [downloadModel]
      rw [if_neg hout, if_neg (by simp [hp])]
      have hne := tryFinally_fst_ne_arm64 f env (archivePathOf f rev env)
        (folderPathOf f rev) (fsInsert f.downloadsFolder env.fs)
      rcases hstep : (tryFinally f env (archivePathOf f rev env) (folderPathOf f rev)
          (fsInsert f.downloadsFolder env.fs)).1 with e | u
      · rw [hstep] at hne
        simp only [hstep]
        simpa using hne
      · simp only [hstep]
        simp

/-- Environment of the C10 witness: arm64 host, nothing installed. -/
def cex4Env : Env := ⟨[], "arm64", "linux", none, .success, [], none, true⟩

/-- Witness for C10: a chrome fetcher configured for plain `linux` on an
arm64 host is refused. -/
theorem download_arm64_gate_witness :
    (downloadModel ⟨.chrome, .linux, "d", "h"⟩ "5" cex4Env).result =
      .error .chromeArm64Unsupported :=
  (download_arm64_gate ⟨.chrome, .linux, "d", "h"⟩ "5" cex4Env rfl).1 rfl (by decide)

end BrowserFetcherSpec
